import Mathlib

/-!
Shallow embedding of the mfclib mixture / calibration core.

Compositions are ordered association lists from species names to amounts,
mirroring Python's ordered dicts.  Fractions are modelled by rationals.
Fallible operations (pydantic validation, scipy solver preconditions,
pandas lookups, division) return `Except Err`.  The external NNLS solver
is an abstract parameter `nnls` receiving the rows `(A[i], b[i])` of the
linear system, exactly as `_solve_system` assembles them.
-/

namespace Mfclib

/-- One composition entry: either the balance marker `"*"` or a
dimensionless fraction (`FractionQ`). -/
inductive Amount where
  | balance : Amount
  | value : ℚ → Amount
deriving DecidableEq, Repr

/-- `float(v)` on an amount; the balance marker is never converted in
reachable code paths. -/
def Amount.toQ : Amount → ℚ
  | .balance => 0
  | .value q => q

/-- The `Mixture` pydantic model: an ordered composition plus an
optional name. -/
structure Mixture where
  composition : List (String × Amount)
  name : Option String := none
deriving DecidableEq, Repr

/-- Python exceptions raised by the modelled code. -/
inductive Err where
  | valueError : String → Err
  | keyError : String → Err
  | zeroDivision : Err
deriving DecidableEq, Repr

deriving instance DecidableEq for Except

/-- Message of the `ValueError` raised by `Mixture.get_balance_species`
when several entries carry the balance marker. -/
def balanceErrMsg : String := "Only one species may be labelled as a balance species"

/-- Message of the `ValueError` raised by `scipy.optimize.nnls` when the
assembled matrix is not two-dimensional (in particular when it is empty). -/
def matrixShapeMsg : String := "Expected a two-dimensional array (matrix)"

/-- Message of the zero-source `ValueError` raised by
`MixtureGenerator._calculate_mixing_ratios` (not by
`supply_proportions_for_mixture`). -/
def noSourcesMsg : String := "No sources provided"

/-- Message of the length-mismatch `ValueError` of `Mixture.compose`. -/
def composeLengthMsg (ns nw : Nat) : String :=
  "Number of sources (" ++ toString ns ++ ") and weights (" ++ toString nw ++ ") must match."

/-- `mixture.species`: the ordered key list of the composition. -/
def Mixture.speciesList (m : Mixture) : List String :=
  m.composition.map Prod.fst

/-- Keys of the entries whose value is the balance marker, in order. -/
def balanceEntries (comp : List (String × Amount)) : List String :=
  (comp.filter fun p => decide (p.2 = Amount.balance)).map Prod.fst

/-- `Mixture.get_balance_species` as written: collect all balance-marked
keys, succeed on zero or one of them, raise otherwise. -/
def getBalanceSpeciesE (comp : List (String × Amount)) : Except Err (Option String) :=
  match balanceEntries comp with
  | [symbol] => .ok (some symbol)
  | [] => .ok none
  | _ => .error (.valueError balanceErrMsg)

/-- The balance species of an already-validated mixture (the validator
guarantees at most one balance entry, so the first one is the unique one). -/
def Mixture.balanceKey (m : Mixture) : Option String :=
  (balanceEntries m.composition).head?

/-- Constructing a `Mixture` through pydantic: the `check_name` model
validator runs `get_balance_species`, so construction fails exactly when
that raises. -/
def mkMixture (name : Option String) (comp : List (String × Amount)) : Except Err Mixture :=
  match getBalanceSpeciesE comp with
  | .error e => .error e
  | .ok _ => .ok { composition := comp, name := name }

/-- `Mixture.balanced`: replace the balance entry (if any) by
`1.0 - sum(other fractions)`; otherwise return the mixture unchanged. -/
def Mixture.balanced (m : Mixture) : Mixture :=
  match m.balanceKey with
  | none => m
  | some bw =>
    let total : ℚ :=
      ((m.composition.filter fun p => decide (p.1 ≠ bw)).map fun p => p.2.toQ).sum
    { name := m.name
      composition :=
        m.composition.map fun p => if p.1 = bw then (p.1, Amount.value (1 - total)) else p }

/-- `Mixture.get(key, default)`: look the key up in the balanced view,
falling back to the default on a `KeyError`. -/
def Mixture.get (m : Mixture) (key : String) (default : ℚ) : ℚ :=
  match m.balanced.composition.lookup key with
  | some a => a.toQ
  | none => default

/-- `key in mixture` (mapping membership, i.e. composition keys). -/
def Mixture.hasSpecies (m : Mixture) (key : String) : Bool :=
  m.speciesList.contains key

/-- The items view of a mixture used by `calculate_CF` and
`Mixture.compose`: keys paired with their balanced values. -/
def balancedItems (m : Mixture) : List (String × ℚ) :=
  m.balanced.composition.map fun p => (p.1, p.2.toQ)

/-- Separator used by `Mixture.label`. -/
def slashSep : String := "/"

/-- Lexicographic comparison of character lists by code point, as Python
compares strings. -/
def charsLe : List Char → List Char → Bool
  | [], _ => true
  | _ :: _, [] => false
  | a :: as, b :: bs =>
    if a.toNat < b.toNat then true
    else if b.toNat < a.toNat then false
    else charsLe as bs

/-- `a <= b` on strings, lexicographic by code point. -/
def strLe (a b : String) : Bool := charsLe a.data b.data

/-- Python's `sorted` on strings (lexicographic by code point). -/
def sortStrings (l : List String) : List String :=
  List.insertionSort (fun a b => strLe a b = true) l

/-- `Mixture.label`: the explicit name if present, otherwise the sorted
species names joined by `"/"`. -/
def Mixture.label (m : Mixture) : String :=
  match m.name with
  | some n => n
  | none => String.intercalate slashSep (sortStrings (m.composition.map Prod.fst))

/-- `result[key] += v`, inserting the key at the end when absent
(Python dict update semantics on an ordered dict). -/
def assocAdd : List (String × ℚ) → String → ℚ → List (String × ℚ)
  | [], key, v => [(key, v)]
  | p :: rest, key, v =>
    if p.1 = key then (p.1, p.2 + v) :: rest else p :: assocAdd rest key v

/-- `result[key] = v` on an ordered dict of amounts: replace the first
occurrence, or append when absent. -/
def assocSet : List (String × Amount) → String → Amount → List (String × Amount)
  | [], key, v => [(key, v)]
  | p :: rest, key, v =>
    if p.1 = key then (p.1, v) :: rest else p :: assocSet rest key v

/-- Inner loop of `Mixture.compose`: `result[key] += weight * value` over
one source's items. -/
def addItems (w : ℚ) (acc items : List (String × ℚ)) : List (String × ℚ) :=
  items.foldl (fun a kv => assocAdd a kv.1 (w * kv.2)) acc

/-- Outer loop of `Mixture.compose` over the zipped sources and weights. -/
def composeFold (acc : List (String × ℚ)) (l : List (Mixture × ℚ)) : List (String × ℚ) :=
  l.foldl (fun a sw => addItems sw.2 a (balancedItems sw.1)) acc

/-- `Mixture.compose(sources, weights, balance_with)`: check the lengths,
sum `weight * value` over each source's (balanced) items, optionally mark
the balance species, and construct the resulting mixture. -/
def Mixture.compose (sources : List Mixture) (weights : List ℚ)
    (balanceWith : Option String) : Except Err Mixture :=
  if sources.length ≠ weights.length then
    .error (.valueError (composeLengthMsg sources.length weights.length))
  else
    let raw : List (String × ℚ) := composeFold [] (sources.zip weights)
    let rawA : List (String × Amount) := raw.map fun p => (p.1, Amount.value p.2)
    let withBal :=
      match balanceWith with
      | none => rawA
      | some bw => assocSet rawA bw Amount.balance
    mkMixture none withBal

/-- The weighted amount of one species accumulated by `Mixture.compose`. -/
def composeContrib (l : List (Mixture × ℚ)) (s : String) : ℚ :=
  (l.map fun sw => sw.2 * sw.1.get s 0).sum

/-- The per-species denominator term sum of `calculate_CF`. -/
def cfDenom (mix table : List (String × ℚ)) : ℚ :=
  (mix.map fun p => p.2 / ((table.lookup p.1).getD 0)).sum

/-- Accumulation loop of `calculate_CF`: `cf += fraction / table[symbol]`,
raising `KeyError` on a missing symbol and `ZeroDivisionError` on a zero
table entry. -/
def cfAccum (table : List (String × ℚ)) : List (String × ℚ) → ℚ → Except Err ℚ
  | [], acc => .ok acc
  | p :: rest, acc =>
    match table.lookup p.1 with
    | none => .error (.keyError p.1)
    | some c =>
      if c = 0 then .error .zeroDivision else cfAccum table rest (acc + p.2 / c)

/-- `calculate_CF(mixture, table)`: `total = sum(values)`,
`cf = sum(fraction / CF)`, result `total / cf`. -/
def calculate_CF (mix table : List (String × ℚ)) : Except Err ℚ :=
  let total : ℚ := (mix.map Prod.snd).sum
  match cfAccum table mix 0 with
  | .error e => .error e
  | .ok cf => if cf = 0 then .error .zeroDivision else .ok (total / cf)

/-- `Mixture.cf`: the conversion factor of the balanced composition. -/
def Mixture.cf (m : Mixture) (table : List (String × ℚ)) : Except Err ℚ :=
  calculate_CF (balancedItems m) table

/-- Physical dimensions distinguished by the validation code: `'[]'`,
`'[temperature]'` and `'[volume]/[time]'`. -/
inductive Dim where
  | dimensionless
  | temperature
  | flow
deriving DecidableEq, Repr

/-- A pint quantity at the granularity the claims need: a rational
magnitude (in the base unit of its dimension) plus its dimension. -/
structure Qty where
  mag : ℚ
  dim : Dim
deriving DecidableEq, Repr

/-- Message of the `ValueError` of `tools.validate_dimension`. -/
def dimErrMsg : String := "Value must have the expected dimensions"

/-- Message of the two-sided `ValueError` of `tools.validate_range`. -/
def rangeBetweenMsg : String := "Value must be between the given bounds"

/-- Message of the lower-bound `ValueError` of `tools.validate_range`. -/
def rangeMinMsg : String := "Value must be greater than or equal to the minimum"

/-- `tools.validate_dimension`: dimension check on a quantity. -/
def validate_dimension (value : Qty) (dim : Dim) : Except Err Qty :=
  if value.dim = dim then .ok value else .error (.valueError dimErrMsg)

/-- `tools.validate_range`: optional lower/upper bound check, comparing
magnitudes. -/
def validate_range (value : Qty) (minv maxv : Option ℚ) : Except Err Qty :=
  match minv, maxv with
  | some lo, some hi =>
    if lo ≤ value.mag ∧ value.mag ≤ hi then .ok value
    else .error (.valueError rangeBetweenMsg)
  | some lo, none =>
    if value.mag < lo then .error (.valueError rangeMinMsg) else .ok value
  | none, some hi =>
    if hi < value.mag then .error (.valueError rangeBetweenMsg) else .ok value
  | none, none => .ok value

/-- `LinearCalibration`: calibration gas, temperature (kelvin magnitude)
and the linear curve `flow = offset + setpoint * slope` (flow magnitudes
in a fixed flow unit). -/
structure LinearCalibration where
  date : Int
  gas : Mixture
  temperature : ℚ
  offset : ℚ
  slope : ℚ
deriving DecidableEq, Repr

/-- `LinearCalibration._impl_setpoint_to_flowrate`. -/
def LinearCalibration.implToFlow (cal : LinearCalibration) (setpoint : ℚ) : ℚ :=
  cal.offset + setpoint * cal.slope

/-- Default/override resolution plus validation of the `temperature`
keyword argument shared by both calibration directions. -/
def resolveTemperature (cal : LinearCalibration) (temperature : Option Qty) :
    Except Err Qty :=
  match temperature with
  | none => .ok ⟨cal.temperature, Dim.temperature⟩
  | some t =>
    match validate_dimension t Dim.temperature with
    | .error e => .error e
    | .ok t2 => validate_range t2 (some 0) none

/-- `CalibrationBase.setpoint_to_flowrate` specialised to the linear
curve: validate the setpoint, resolve gas/temperature defaults, evaluate
the curve, then apply the conversion-factor ratio and the kelvin
temperature ratio. -/
def LinearCalibration.setpoint_to_flowrate (cal : LinearCalibration)
    (table : List (String × ℚ)) (setpoint : Qty)
    (gas : Option Mixture) (temperature : Option Qty) : Except Err Qty :=
  match validate_dimension setpoint Dim.dimensionless with
  | .error e => .error e
  | .ok sp0 =>
  match validate_range sp0 (some 0) (some 1) with
  | .error e => .error e
  | .ok sp =>
  let gasM := gas.getD cal.gas
  match resolveTemperature cal temperature with
  | .error e => .error e
  | .ok temp =>
  let flow := cal.implToFlow sp.mag
  match gasM.cf table with
  | .error e => .error e
  | .ok cfg =>
  match cal.gas.cf table with
  | .error e => .error e
  | .ok cfc =>
  if cfc = 0 then .error .zeroDivision
  else
    let flow2 := flow * (cfg / cfc)
    if cal.temperature = 0 then .error .zeroDivision
    else .ok ⟨flow2 * (temp.mag / cal.temperature), Dim.flow⟩

/-- `CalibrationBase.flowrate_to_setpoint` specialised to the linear
curve: validate the flow dimension, resolve defaults, apply the inverse
conversion-factor and temperature ratios, invert the curve and validate
that the setpoint lies in `[0, 1]`. -/
def LinearCalibration.flowrate_to_setpoint (cal : LinearCalibration)
    (table : List (String × ℚ)) (flowrate : Qty)
    (gas : Option Mixture) (temperature : Option Qty) : Except Err Qty :=
  match validate_dimension flowrate Dim.flow with
  | .error e => .error e
  | .ok fr =>
  let gasM := gas.getD cal.gas
  match resolveTemperature cal temperature with
  | .error e => .error e
  | .ok temp =>
  match cal.gas.cf table with
  | .error e => .error e
  | .ok cfc =>
  match gasM.cf table with
  | .error e => .error e
  | .ok cfg =>
  if cfg = 0 then .error .zeroDivision
  else
    let fr1 := fr.mag * (cfc / cfg)
    if temp.mag = 0 then .error .zeroDivision
    else
      let fr2 := fr1 * (cal.temperature / temp.mag)
      if cal.slope = 0 then .error .zeroDivision
      else validate_range ⟨(fr2 - cal.offset) / cal.slope, Dim.dimensionless⟩ (some 0) (some 1)

/-- Tolerance of `np.isclose(x, 0)` (its absolute tolerance, the relative
part vanishes against zero). -/
def nzTol : ℚ := 1 / 100000000

/-- Tolerance of the final sum-consistency check. -/
def sumTol : ℚ := 1 / 10000

/-- The non-fatal warning about target species missing from every source. -/
def missingWarning : String := "Missing species in supply."

/-- The non-fatal warning about weights not summing to one. -/
def inconsistentWarning : String := "Inconsistent mixture composition"

/-- One row of the linear system of `_solve_system`:
`([source.get(key, 0) for source in sources], mixture.get(key, 0))`. -/
def buildRow (sources : List Mixture) (mix : Mixture) (s : String) : List ℚ × ℚ :=
  (sources.map fun src => src.get s 0, mix.get s 0)

/-- `_solve_system(sources, mixture, species)`: assemble the rows and call
`scipy.optimize.nnls`, which rejects an empty (not two-dimensional)
matrix.  The solver itself is the abstract parameter `nnls`. -/
def solveSystem (nnls : List (List ℚ × ℚ) → List ℚ) (sources : List Mixture)
    (mix : Mixture) (speciesL : List String) : Except Err (List ℚ) :=
  match speciesL with
  | [] => .error (.valueError matrixShapeMsg)
  | _ => .ok (nnls (speciesL.map (buildRow sources mix)))

/-- `sorted(set(union of source species))`. -/
def speciesUnion (sources : List Mixture) : List String :=
  sortStrings ((sources.map Mixture.speciesList).flatten.dedup)

/-- The composition dict assembled between the two solves: every union
species starts at `0.0`, each source adds `x1[k] * source[name]`, then the
balance species is re-inserted as the balance marker. -/
def composeStep (sources : List Mixture) (x1 : List ℚ) (speciesL : List String)
    (bw : String) : List (String × Amount) :=
  let comp0 : List (String × ℚ) := speciesL.map fun s => (s, 0)
  let comp :=
    (sources.zip x1).foldl
      (fun acc sw =>
        sw.1.speciesList.foldl (fun acc2 nm => assocAdd acc2 nm (sw.2 * sw.1.get nm 0)) acc)
      comp0
  assocSet (comp.map fun p => (p.1, Amount.value p.2)) bw Amount.balance

/-- Tail of `supply_proportions_for_mixture` shared by both branches: the
solve over all source species against the balanced mixture, the zeroing of
near-zero weights and the non-fatal sum-consistency warning. -/
def supplyFinish (nnls : List (List ℚ × ℚ) → List ℚ) (sources : List Mixture)
    (mix : Mixture) (species warn1 : List String) :
    Except Err (List String × List ℚ) :=
  match solveSystem nnls sources mix.balanced species with
  | .error e => .error e
  | .ok x =>
    let x3 := x.map fun v => if |v| ≤ nzTol then 0 else v
    let warn2 : List String := if |x3.sum - 1| > sumTol then [inconsistentWarning] else []
    .ok (warn1 ++ warn2, x3)

/-- `supply_proportions_for_mixture(sources, mixture)`: warn about
unsupplied species; when the target has a balance species, first solve
over the supplied non-balance target species, recompose the mixture with
the balance marker re-inserted, and then (in both branches) solve over
all source species against the balanced mixture.  Returns the emitted
warnings next to the weights. -/
def supply_proportions_for_mixture (nnls : List (List ℚ × ℚ) → List ℚ)
    (sources : List Mixture) (target : Mixture) :
    Except Err (List String × List ℚ) :=
  let species := speciesUnion sources
  let warn1 : List String :=
    if (target.speciesList.filter fun s => !(species.contains s)).isEmpty then []
    else [missingWarning]
  match target.balanceKey with
  | none => supplyFinish nnls sources target species warn1
  | some bw =>
    match solveSystem nnls sources target
        (species.filter fun s => !(decide (s = bw) || !(target.speciesList.contains s))) with
    | .error e => .error e
    | .ok x1 =>
      match mkMixture none (composeStep sources x1 species bw) with
      | .error e => .error e
      | .ok mix2 => supplyFinish nnls sources mix2 species warn1

/-- Placeholder error for the case the specification sentence does not
cover (a target without balance species). -/
def specNoBalanceMsg : String := "target has no balance species"

/-- The two-phase algorithm exactly as the specification sentence states
it: phase 1 over `target.species` minus the balance species (in target
composition order), composition over the union with the balance species
re-inserted, phase 2 over the full union against the balanced mixture,
zeroing applied to the result. -/
def spec_supply_proportions (nnls : List (List ℚ × ℚ) → List ℚ)
    (sources : List Mixture) (target : Mixture) : Except Err (List ℚ) :=
  match target.balanceKey with
  | none => .error (.valueError specNoBalanceMsg)
  | some bw =>
    let species := speciesUnion sources
    match solveSystem nnls sources target
        (target.speciesList.filter fun s => !(decide (s = bw))) with
    | .error e => .error e
    | .ok x1 =>
      match mkMixture none (composeStep sources x1 species bw) with
      | .error e => .error e
      | .ok mix2 =>
        match solveSystem nnls sources mix2.balanced species with
        | .error e => .error e
        | .ok x => .ok (x.map fun v => if |v| ≤ nzTol then 0 else v)

/-! Concrete fixtures used by witnesses and counterexamples. -/

/-- A trivial solver instantiation of the abstract `nnls` parameter. -/
def nnls0 : List (List ℚ × ℚ) → List ℚ := fun _ => []

/-- Pure nitrogen. -/
def mixN2 : Mixture := ⟨[ ( "N2", Amount.value 1)], none⟩

/-- Pure argon. -/
def mixAr1 : Mixture := ⟨[ ( "Ar", Amount.value 1)], none⟩

/-- A mixture consisting only of a balance species. -/
def mixArStar : Mixture := ⟨[ ( "Ar", Amount.balance)], none⟩

/-- Oxygen in balance argon, species deliberately not in sorted order. -/
def mixO2Ar : Mixture := ⟨[ ( "O2", Amount.value (21/100)), ( "Ar", Amount.balance)], none⟩

/-- A target with a balance species plus a species found in no source. -/
def tgtArN2 : Mixture := ⟨[ ( "Ar", Amount.balance), ( "N2", Amount.value (1/2))], none⟩

/-- A small conversion-factor table. -/
def tableN2O2 : List (String × ℚ) := [ ( "N2", 1), ( "O2", 9926/10000)]

/-- A one-row conversion-factor table. -/
def tableN2 : List (String × ℚ) := [ ( "N2", 1)]

/-- Dry-air-like items for the conversion-factor computation. -/
def airItems : List (String × ℚ) := [ ( "N2", 79/100), ( "O2", 21/100)]

/-- Items naming a species that is absent from the tables above. -/
def xeItems : List (String × ℚ) := [ ( "Xe", 1)]

/-- A linear calibration with a negative offset. -/
def calNeg : LinearCalibration := ⟨0, mixN2, 273, -10, 20⟩

/-- The calibration of the round-trip witness (10 ml/min offset,
1500 ml/min slope, nitrogen at 273 K). -/
def calRound : LinearCalibration := ⟨0, mixN2, 273, 10, 1500⟩

/-- Two single-species sources. -/
def srcsArN2 : List Mixture := [mixAr1, mixN2]

/-! Association-list lemmas. -/

theorem lookup_map_pair {β γ : Type} (f : β → γ) (l : List (String × β)) (s : String) :
    (l.map fun p => (p.1, f p.2)).lookup s = (l.lookup s).map f := by
  induction l with
  | nil => rfl
  | cons p rest ih =>
    by_cases h : s = p.1
    · simp [List.lookup, h]
    · have hb : (s == p.1) = false := by simpa using h
      simp [List.lookup, hb, ih]

theorem lookup_eq_none_iff {β : Type} (l : List (String × β)) (s : String) :
    l.lookup s = none ↔ s ∉ l.map Prod.fst := by
  induction l with
  | nil => simp
  | cons p rest ih =>
    by_cases h : s = p.1
    · simp [List.lookup, h]
    · have hb : (s == p.1) = false := by simpa using h
      simp [List.lookup, hb, ih, h]

theorem lookup_isSome_iff {β : Type} (l : List (String × β)) (s : String) :
    (l.lookup s).isSome = true ↔ s ∈ l.map Prod.fst := by
  rw [← Decidable.not_iff_not, ← lookup_eq_none_iff l s]
  cases l.lookup s <;> simp

/-! Order properties of the string comparison used by `sorted`. -/

theorem charsLe_total : ∀ as bs : List Char, charsLe as bs = true ∨ charsLe bs as = true := by
  intro as
  induction as with
  | nil => intro bs; left; rfl
  | cons a as ih =>
    intro bs
    cases bs with
    | nil => right; rfl
    | cons b bs =>
      by_cases h1 : a.toNat < b.toNat
      · left; simp [charsLe, h1]
      · by_cases h2 : b.toNat < a.toNat
        · right; simp [charsLe, h2]
        · rcases ih bs with h | h
          · left; simp [charsLe, h1, h2, h]
          · right; simp [charsLe, h1, h2, h]

theorem charsLe_trans : ∀ as bs cs : List Char,
    charsLe as bs = true → charsLe bs cs = true → charsLe as cs = true := by
  intro as
  induction as with
  | nil => intro bs cs _ _; rfl
  | cons a as ih =>
    intro bs cs hab hbc
    cases bs with
    | nil => simp [charsLe] at hab
    | cons b bs =>
      cases cs with
      | nil => simp [charsLe] at hbc
      | cons c cs =>
        simp only [charsLe] at hab hbc ⊢
        split_ifs at hab hbc ⊢ with h1 h2 h3 h4 h5 h6 <;>
          first
            | rfl
            | omega
            | (exact ih bs cs hab hbc)

instance : IsTotal String (fun a b => strLe a b = true) :=
  ⟨fun a b => charsLe_total a.data b.data⟩

instance : IsTrans String (fun a b => strLe a b = true) :=
  ⟨fun a b c hab hbc => charsLe_trans a.data b.data c.data hab hbc⟩

/-- C5: constructing a mixture whose composition mapping carries two or
more balance markers always raises the balance `ValueError`, while a
composition with zero or one balance markers passes the construction
check. -/
theorem mixture_construction_balance_count (name : Option String)
    (comp : List (String × Amount)) :
    (2 ≤ (balanceEntries comp).length →
      mkMixture name comp = .error (.valueError balanceErrMsg)) ∧
    ((balanceEntries comp).length ≤ 1 →
      mkMixture name comp = .ok { composition := comp, name := name }) := by
  constructor
  · intro h2
    rcases h : balanceEntries comp with _ | ⟨a, _ | ⟨b, t⟩⟩
    · rw [h] at h2; simp at h2
    · rw [h] at h2; simp at h2
    · simp [mkMixture, getBalanceSpeciesE, h]
  · intro h1
    rcases h : balanceEntries comp with _ | ⟨a, _ | ⟨b, t⟩⟩
    · simp [mkMixture, getBalanceSpeciesE, h]
    · simp [mkMixture, getBalanceSpeciesE, h]
    · rw [h] at h1; simp at h1

/-- Witness for C5: a double-balance composition is rejected, a
single-balance composition is accepted. -/
theorem mixture_construction_balance_count_w :
    mkMixture none [ ( "Ar", Amount.balance), ( "He", Amount.balance)]
        = .error (.valueError balanceErrMsg) ∧
    mkMixture none [ ( "Ar", Amount.balance), ( "He", Amount.value (1/2))]
        = .ok { composition := [ ( "Ar", Amount.balance), ( "He", Amount.value (1/2))],
                name := none } :=
  ⟨(mixture_construction_balance_count none _).1 (by decide),
   (mixture_construction_balance_count none _).2 (by decide)⟩

/-- C9 counterexample: for the unnamed mixture with composition order
`O2, Ar` the synthesized label is the sorted `"Ar/O2"`, not the
composition-order `"O2/Ar"` the claim asserts. -/
theorem label_order_counterexample :
    mixO2Ar.name = none ∧ mixO2Ar.speciesList = [ "O2", "Ar"] ∧
    mixO2Ar.label = "Ar/O2" ∧ ¬ mixO2Ar.label = "O2/Ar" := by decide

/-- C9 (amended): for every mixture without an explicit name, the label
joins the species identifiers with `"/"` in lexicographically sorted
order (a sorted permutation of the composition order). -/
theorem label_sorted_species (m : Mixture) (h : m.name = none) :
    ∃ l, l.Perm m.speciesList ∧ List.Sorted (fun a b => strLe a b = true) l ∧
      m.label = String.intercalate slashSep l := by
  refine ⟨sortStrings m.speciesList, ?_, ?_, ?_⟩
  · exact List.perm_insertionSort _ _
  · exact List.sorted_insertionSort _ _
  · simp [Mixture.label, h, Mixture.speciesList, sortStrings]

/-- Witness for C9 (amended) at the `O2, Ar` mixture. -/
theorem label_sorted_species_w :
    ∃ l, l.Perm mixO2Ar.speciesList ∧ List.Sorted (fun a b => strLe a b = true) l ∧
      mixO2Ar.label = String.intercalate slashSep l :=
  label_sorted_species mixO2Ar (by decide)

/-- C8 (amended): with an empty source sequence the solve still raises a
`ValueError`, but it is the NNLS routine's complaint about the empty
(non-two-dimensional) matrix, not a message reporting that no sources
were provided. -/
theorem supply_zero_sources_error (nnls : List (List ℚ × ℚ) → List ℚ) (target : Mixture) :
    supply_proportions_for_mixture nnls [] target = .error (.valueError matrixShapeMsg) := by
  cases hb : target.balanceKey with
  | none =>
    simp [supply_proportions_for_mixture, hb, supplyFinish, solveSystem, speciesUnion,
      sortStrings]
  | some bw =>
    simp [supply_proportions_for_mixture, hb, solveSystem, speciesUnion, sortStrings]

/-- C8 counterexample: at a concrete target, zero sources produce the
matrix-shape `ValueError`, not an error reporting that no sources were
provided. -/
theorem supply_zero_sources_counterexample :
    supply_proportions_for_mixture nnls0 [] mixN2 = .error (.valueError matrixShapeMsg) ∧
    supply_proportions_for_mixture nnls0 [] mixN2 ≠ .error (.valueError noSourcesMsg) := by
  decide

/-! Balancing lemmas. -/

theorem filter_balance_of_entries (comp : List (String × Amount)) (bw : String)
    (h : balanceEntries comp = [bw]) :
    comp.filter (fun p => decide (p.2 = Amount.balance)) = [(bw, Amount.balance)] := by
  unfold balanceEntries at h
  rcases e : comp.filter (fun p => decide (p.2 = Amount.balance)) with _ | ⟨q, t⟩
  · rw [e] at h; simp at h
  · rw [e] at h
    simp only [List.map_cons, List.cons.injEq] at h
    obtain ⟨h1, h2⟩ := h
    have ht : t = [] := by
      cases t with
      | nil => rfl
      | cons _ _ => simp at h2
    have hq2 : q.2 = Amount.balance := by
      have hqmem : q ∈ comp.filter (fun p => decide (p.2 = Amount.balance)) := by
        rw [e]; exact List.mem_cons_self _ _
      simpa using List.of_mem_filter hqmem
    subst ht
    rw [e]
    cases q with
    | mk q1 q2 => simp only at h1 hq2; rw [h1, hq2]

theorem sum_replace (l : List (String × Amount)) (bw : String) (t : ℚ)
    (hf : l.filter (fun p => decide (p.2 = Amount.balance)) = [(bw, Amount.balance)])
    (hnd : (l.map Prod.fst).Nodup) :
    ((l.map fun p => if p.1 = bw then (p.1, Amount.value t) else p).map fun p => p.2.toQ).sum
      = t + ((l.filter fun p => decide (p.1 ≠ bw)).map fun p => p.2.toQ).sum := by
  induction l with
  | nil => simp at hf
  | cons p rest ih =>
    by_cases hp : p.2 = Amount.balance
    · have hfc : p :: rest.filter (fun q => decide (q.2 = Amount.balance))
          = [(bw, Amount.balance)] := by
        simpa [List.filter_cons, hp] using hf
      simp only [List.cons.injEq] at hfc
      obtain ⟨hpe, hrest⟩ := hfc
      have hp1 : p.1 = bw := by rw [hpe]
      have hbwnot : bw ∉ rest.map Prod.fst := by
        rw [← hp1]
        exact (List.nodup_cons.mp hnd).1
      have hmap : rest.map (fun q => if q.1 = bw then (q.1, Amount.value t) else q) = rest := by
        have hall : ∀ q ∈ rest, (if q.1 = bw then (q.1, Amount.value t) else q) = q := by
          intro q hq
          rw [if_neg]
          intro hh
          exact hbwnot (hh ▸ List.mem_map_of_mem Prod.fst hq)
        simpa using List.map_congr_left hall
      have hfilt : rest.filter (fun q => !decide (q.1 = bw)) = rest := by
        apply List.filter_eq_self.mpr
        intro q hq
        simp only [Bool.not_eq_true', decide_eq_false_iff_not]
        intro hh
        exact hbwnot (hh ▸ List.mem_map_of_mem Prod.fst hq)
      simp [List.filter_cons, hp1, hmap, hfilt, hpe, Amount.toQ]
    · have hfc : rest.filter (fun q => decide (q.2 = Amount.balance))
          = [(bw, Amount.balance)] := by
        simpa [List.filter_cons, hp] using hf
      have hbwmem : bw ∈ rest.map Prod.fst := by
        have hm : (bw, Amount.balance) ∈ rest.filter (fun q => decide (q.2 = Amount.balance)) := by
          rw [hfc]; exact List.mem_cons_self _ _
        exact List.mem_map_of_mem Prod.fst (List.mem_of_mem_filter hm)
      have hp1 : p.1 ≠ bw := by
        intro hh
        exact (List.nodup_cons.mp hnd).1 (hh ▸ hbwmem)
      have ihr := ih hfc (List.nodup_cons.mp hnd).2
      have e1 : (if p.1 = bw then (p.1, Amount.value t) else p) = p := if_neg hp1
      have e2 : decide (p.1 ≠ bw) = true := by simpa using hp1
      rw [List.map_cons, e1, List.map_cons, List.sum_cons, ihr, List.filter_cons, e2]
      simp only [if_true]
      rw [List.map_cons, List.sum_cons]
      ring

theorem lookup_replace (l : List (String × Amount)) (bw : String) (t : ℚ)
    (hmem : bw ∈ l.map Prod.fst) :
    (l.map fun p => if p.1 = bw then (p.1, Amount.value t) else p).lookup bw
      = some (Amount.value t) := by
  induction l with
  | nil => simp at hmem
  | cons p rest ih =>
    by_cases h : p.1 = bw
    · have e1 : (if p.1 = bw then (p.1, Amount.value t) else p) = (p.1, Amount.value t) :=
        if_pos h
      have hb : (bw == p.1) = true := by simp [h]
      rw [List.map_cons, e1]
      simp only [List.lookup, hb]
    · have hb : (bw == p.1) = false := by
        simp only [beq_eq_false_iff_ne, ne_eq]
        intro hh
        exact h hh.symm
      have hmem2 : bw ∈ rest.map Prod.fst := by
        rw [List.map_cons] at hmem
        rcases List.mem_cons.mp hmem with hh | hh
        · exact absurd hh.symm h
        · exact hh
      rw [List.map_cons, if_neg h]
      simp only [List.lookup, hb]
      exact ih hmem2

/-- C2: for a mixture with exactly one balance entry, the balanced view
replaces that entry by `1 - sum(other fractions)` and the balanced
composition sums to exactly `1`; for a mixture with no balance entry, the
balanced view is the mixture unchanged. -/
theorem balanced_view (m : Mixture) (hnd : m.speciesList.Nodup) :
    ((balanceEntries m.composition).length = 1 →
      ∃ bw, m.balanceKey = some bw ∧
        m.balanced.composition.lookup bw
          = some (Amount.value
              (1 - ((m.composition.filter fun p => decide (p.1 ≠ bw)).map
                      fun p => p.2.toQ).sum)) ∧
        ((m.balanced.composition.map fun p => p.2.toQ).sum = 1)) ∧
    (balanceEntries m.composition = [] → m.balanced = m) := by
  constructor
  · intro hone
    rcases e : balanceEntries m.composition with _ | ⟨bw, rest⟩
    · rw [e] at hone; simp at hone
    · have hrest : rest = [] := by
        rw [e] at hone
        simpa using hone
      subst hrest
      have hbk : m.balanceKey = some bw := by
        simp [Mixture.balanceKey, e]
      have hf := filter_balance_of_entries m.composition bw e
      have hmem : bw ∈ m.composition.map Prod.fst := by
        have hm : (bw, Amount.balance) ∈ m.composition.filter
            (fun q => decide (q.2 = Amount.balance)) := by
          rw [hf]; exact List.mem_cons_self _ _
        exact List.mem_map_of_mem Prod.fst (List.mem_of_mem_filter hm)
      refine ⟨bw, hbk, ?_, ?_⟩
      · simp only [Mixture.balanced, hbk]
        exact lookup_replace _ _ _ hmem
      · simp only [Mixture.balanced, hbk]
        rw [sum_replace _ _ _ hf hnd]
        ring
  · intro hzero
    have hbk : m.balanceKey = none := by
      simp [Mixture.balanceKey, hzero]
    simp [Mixture.balanced, hbk]

/-- Witness for C2 at the `O2, Ar` mixture (one balance entry) and pure
nitrogen (no balance entry). -/
theorem balanced_view_w :
    (∃ bw, mixO2Ar.balanceKey = some bw ∧
        mixO2Ar.balanced.composition.lookup bw
          = some (Amount.value
              (1 - ((mixO2Ar.composition.filter fun p => decide (p.1 ≠ bw)).map
                      fun p => p.2.toQ).sum)) ∧
        ((mixO2Ar.balanced.composition.map fun p => p.2.toQ).sum = 1)) ∧
    mixN2.balanced = mixN2 :=
  ⟨(balanced_view mixO2Ar (by decide)).1 (by decide),
   (balanced_view mixN2 (by decide)).2 (by decide)⟩

/-! Conversion-factor lemmas. -/

theorem cfAccum_ok (table mix : List (String × ℚ))
    (h : ∀ p ∈ mix, ∃ c, table.lookup p.1 = some c ∧ c ≠ 0) :
    ∀ acc, cfAccum table mix acc = .ok (acc + cfDenom mix table) := by
  induction mix with
  | nil => intro acc; simp [cfAccum, cfDenom]
  | cons p rest ih =>
    intro acc
    obtain ⟨c, hc, hc0⟩ := h p (List.mem_cons_self _ _)
    have hrest : ∀ q ∈ rest, ∃ c, table.lookup q.1 = some c ∧ c ≠ 0 := fun q hq =>
      h q (List.mem_cons_of_mem _ hq)
    simp only [cfAccum, hc]
    rw [if_neg hc0, ih hrest]
    simp only [cfDenom, List.map_cons, List.sum_cons, hc, Option.getD_some]
    rw [Except.ok.injEq]
    ring

theorem cfAccum_err (table mix : List (String × ℚ))
    (hall : ∀ p ∈ mix, ∀ c, table.lookup p.1 = some c → c ≠ 0)
    (hmiss : ∃ p ∈ mix, table.lookup p.1 = none) :
    ∀ acc, ∃ s, table.lookup s = none ∧ cfAccum table mix acc = .error (.keyError s) := by
  induction mix with
  | nil => obtain ⟨p, hp, _⟩ := hmiss; simp at hp
  | cons p rest ih =>
    intro acc
    cases hl : table.lookup p.1 with
    | none => exact ⟨p.1, hl, by rw [cfAccum, hl]⟩
    | some c =>
      have hc0 : c ≠ 0 := hall p (List.mem_cons_self _ _) c hl
      have hmiss2 : ∃ q ∈ rest, table.lookup q.1 = none := by
        obtain ⟨q, hq, hqn⟩ := hmiss
        rcases List.mem_cons.mp hq with hh | hh
        · rw [hh] at hqn; rw [hqn] at hl; cases hl
        · exact ⟨q, hh, hqn⟩
      have hall2 : ∀ q ∈ rest, ∀ c, table.lookup q.1 = some c → c ≠ 0 := fun q hq =>
        hall q (List.mem_cons_of_mem _ hq)
      obtain ⟨s, hs, hrec⟩ := ih hall2 hmiss2 (acc + p.2 / c)
      refine ⟨s, hs, ?_⟩
      simp only [cfAccum, hl]
      rw [if_neg hc0, hrec]

/-- C4: on a composition whose species all have a (nonzero) table entry
and whose denominator sum is nonzero, `calculate_CF` returns
`total / denom`; on a composition naming a species absent from the table
it propagates a `KeyError` instead of substituting a default. -/
theorem calculate_CF_spec (mix table : List (String × ℚ)) :
    ((∀ p ∈ mix, ∃ c, table.lookup p.1 = some c ∧ c ≠ 0) → cfDenom mix table ≠ 0 →
      calculate_CF mix table = .ok ((mix.map Prod.snd).sum / cfDenom mix table)) ∧
    ((∀ p ∈ mix, ∀ c, table.lookup p.1 = some c → c ≠ 0) →
      (∃ p ∈ mix, table.lookup p.1 = none) →
      ∃ s, table.lookup s = none ∧ calculate_CF mix table = .error (.keyError s)) := by
  constructor
  · intro h hd
    rw [calculate_CF, cfAccum_ok table mix h 0, zero_add]
    simp only [if_neg hd]
  · intro hall hmiss
    obtain ⟨s, hs, he⟩ := cfAccum_err table mix hall hmiss 0
    exact ⟨s, hs, by rw [calculate_CF, he]⟩

/-- Witness for C4: dry air against the two-row table evaluates to
`total / denom`, and a xenon mixture produces the `KeyError`. -/
theorem calculate_CF_spec_w :
    calculate_CF airItems tableN2O2
        = .ok ((airItems.map Prod.snd).sum / cfDenom airItems tableN2O2) ∧
    (∃ s, tableN2O2.lookup s = none ∧
      calculate_CF xeItems tableN2O2 = .error (.keyError s)) := by
  constructor
  · apply (calculate_CF_spec airItems tableN2O2).1
    · intro p hp
      have hp2 : p = ( "N2", (79:ℚ)/100) ∨ p = ( "O2", (21:ℚ)/100) := by
        simpa [airItems] using hp
      rcases hp2 with hh | hh
      · exact ⟨1, by rw [hh]; rfl, one_ne_zero⟩
      · refine ⟨9926/10000, by rw [hh]; rfl, by norm_num⟩
    · show ((airItems.map fun p => p.2 / ((tableN2O2.lookup p.1).getD 0)).sum) ≠ 0
      have e1 : tableN2O2.lookup ( "N2" : String) = some 1 := rfl
      have e2 : tableN2O2.lookup ( "O2" : String) = some (9926/10000) := rfl
      norm_num [airItems, e1, e2]
  · apply (calculate_CF_spec xeItems tableN2O2).2
    · intro p hp c hc
      have hp2 : p = ( "Xe", (1:ℚ)) := by simpa [xeItems] using hp
      have hx : tableN2O2.lookup p.1 = none := by rw [hp2]; rfl
      rw [hx] at hc
      cases hc
    · exact ⟨( "Xe", 1), by simp [xeItems], by rfl⟩

/-! Compose-fold lemmas. -/

theorem assocAdd_lookup_self (l : List (String × ℚ)) (k : String) (v : ℚ) :
    (assocAdd l k v).lookup k = some (((l.lookup k).getD 0) + v) := by
  induction l with
  | nil => simp [assocAdd, List.lookup]
  | cons p rest ih =>
    by_cases h : p.1 = k
    · have hb : (k == p.1) = true := by simp [h]
      simp only [assocAdd, if_pos h, List.lookup, hb]
      simp
    · have hb : (k == p.1) = false := by
        simp only [beq_eq_false_iff_ne, ne_eq]
        intro hh; exact h hh.symm
      simp only [assocAdd, if_neg h, List.lookup, hb, ih]

theorem assocAdd_lookup_ne (l : List (String × ℚ)) (k k' : String) (v : ℚ)
    (h : k' ≠ k) : (assocAdd l k v).lookup k' = l.lookup k' := by
  induction l with
  | nil =>
    have hb : (k' == k) = false := by simpa using h
    simp [assocAdd, List.lookup, hb]
  | cons p rest ih =>
    by_cases hp : p.1 = k
    · have hb : (k' == p.1) = false := by
        simp only [beq_eq_false_iff_ne, ne_eq]
        intro hh; exact h (hh.trans hp)
      simp only [assocAdd, if_pos hp, List.lookup, hb]
    · simp only [assocAdd, if_neg hp]
      cases hbe : (k' == p.1) <;> simp only [List.lookup, hbe, ih]

theorem addItems_lookup_notmem (w : ℚ) (items : List (String × ℚ)) (s : String)
    (h : s ∉ items.map Prod.fst) :
    ∀ acc, (addItems w acc items).lookup s = acc.lookup s := by
  induction items with
  | nil => intro acc; rfl
  | cons kv rest ih =>
    intro acc
    rw [List.map_cons] at h
    have hs : s ≠ kv.1 := fun hh => h (hh ▸ List.mem_cons_self _ _)
    have hrest : s ∉ rest.map Prod.fst := fun hh => h (List.mem_cons_of_mem _ hh)
    show (addItems w (assocAdd acc kv.1 (w * kv.2)) rest).lookup s = acc.lookup s
    rw [ih hrest, assocAdd_lookup_ne _ _ _ _ hs]

theorem addItems_lookup (w : ℚ) (items : List (String × ℚ)) (s : String) :
    (items.map Prod.fst).Nodup →
    ∀ acc, (addItems w acc items).lookup s =
      match items.lookup s with
      | some v => some (((acc.lookup s).getD 0) + w * v)
      | none => acc.lookup s := by
  induction items with
  | nil => intro _ acc; rfl
  | cons kv rest ih =>
    intro hnd acc
    rw [List.map_cons] at hnd
    show (addItems w (assocAdd acc kv.1 (w * kv.2)) rest).lookup s = _
    by_cases h : s = kv.1
    · have hsrest : s ∉ rest.map Prod.fst := h ▸ (List.nodup_cons.mp hnd).1
      have hb : (s == kv.1) = true := by simp [h]
      rw [addItems_lookup_notmem _ _ _ hsrest, h, assocAdd_lookup_self]
      simp [List.lookup]
    · have hb : (s == kv.1) = false := by simpa using h
      rw [ih (List.nodup_cons.mp hnd).2, assocAdd_lookup_ne _ _ _ _ h]
      simp only [List.lookup, hb]

theorem balancedItems_keys (m : Mixture) :
    (balancedItems m).map Prod.fst = m.speciesList := by
  cases hb : m.balanceKey with
  | none => simp [balancedItems, Mixture.balanced, hb, Mixture.speciesList, List.map_map]
  | some bw =>
    simp only [balancedItems, Mixture.balanced, hb, Mixture.speciesList, List.map_map]
    apply List.map_congr_left
    intro p _
    by_cases h : p.1 = bw <;> simp [h]

theorem get_eq_items_getD (m : Mixture) (s : String) :
    m.get s 0 = ((balancedItems m).lookup s).getD 0 := by
  unfold Mixture.get balancedItems
  rw [lookup_map_pair Amount.toQ]
  cases h : m.balanced.composition.lookup s <;> simp [h]

theorem hasSpecies_iff_items (m : Mixture) (s : String) :
    m.hasSpecies s = true ↔ ((balancedItems m).lookup s).isSome = true := by
  rw [lookup_isSome_iff, balancedItems_keys]
  unfold Mixture.hasSpecies
  exact List.elem_iff

theorem composeFold_lookup (l : List (Mixture × ℚ)) (s : String) :
    (∀ sw ∈ l, sw.1.speciesList.Nodup) →
    ∀ acc, (composeFold acc l).lookup s =
      match acc.lookup s with
      | some a => some (a + composeContrib l s)
      | none =>
        if l.any (fun sw => sw.1.hasSpecies s) then some (composeContrib l s) else none := by
  induction l with
  | nil =>
    intro _ acc
    rcases h : acc.lookup s with _ | a <;> simp [composeFold, composeContrib, h]
  | cons sw rest ih =>
    intro hall acc
    have hnd : ((balancedItems sw.1).map Prod.fst).Nodup := by
      rw [balancedItems_keys]; exact hall sw (List.mem_cons_self _ _)
    have hall2 : ∀ p ∈ rest, p.1.speciesList.Nodup := fun p hp =>
      hall p (List.mem_cons_of_mem _ hp)
    show (composeFold (addItems sw.2 acc (balancedItems sw.1)) rest).lookup s = _
    rw [ih hall2, addItems_lookup sw.2 (balancedItems sw.1) s hnd acc]
    have hget : sw.1.get s 0 = ((balancedItems sw.1).lookup s).getD 0 :=
      get_eq_items_getD sw.1 s
    rcases hitems : (balancedItems sw.1).lookup s with _ | v
    · have hsp : sw.1.hasSpecies s = false := by
        rw [← Bool.not_eq_true, hasSpecies_iff_items, hitems]
        simp
      have hg0 : sw.1.get s 0 = 0 := by rw [hget, hitems]; rfl
      rcases hacc : acc.lookup s with _ | a
      · rw [List.any_cons, hsp, Bool.false_or]
        simp [composeContrib, hg0]
      · simp only [composeContrib, List.map_cons, List.sum_cons, hg0, mul_zero, zero_add,
          Option.some.injEq]
    · have hsp : sw.1.hasSpecies s = true := by rw [hasSpecies_iff_items, hitems]; rfl
      have hgv : sw.1.get s 0 = v := by rw [hget, hitems]; rfl
      rcases hacc : acc.lookup s with _ | a
      · rw [List.any_cons, hsp, Bool.true_or]
        simp only [if_true, composeContrib, List.map_cons, List.sum_cons, hgv,
          Option.getD_none, Option.some.injEq]
        ring
      · simp only [composeContrib, List.map_cons, List.sum_cons, hgv, Option.getD_some,
          Option.some.injEq]
        ring

theorem any_fst_zip (l₁ : List Mixture) : ∀ l₂ : List ℚ, l₁.length = l₂.length →
    ∀ p : Mixture → Bool, (l₁.zip l₂).any (fun sw => p sw.1) = l₁.any p := by
  induction l₁ with
  | nil => intro l₂ _ p; rfl
  | cons x l ih =>
    intro l₂ hlen p
    cases l₂ with
    | nil => cases hlen
    | cons y l₂ =>
      simp only [List.zip_cons_cons, List.any_cons]
      rw [ih l₂ (by simpa using hlen) p]

theorem balanceEntries_map_value (l : List (String × ℚ)) :
    balanceEntries (l.map fun p => (p.1, Amount.value p.2)) = [] := by
  unfold balanceEntries
  rw [List.map_eq_nil_iff]
  apply List.filter_eq_nil_iff.mpr
  intro p hp
  simp only [List.mem_map] at hp
  obtain ⟨q, _, hq⟩ := hp
  rw [← hq]
  simp

/-- C10: `Mixture.compose` raises the length-mismatch `ValueError` when
sources and weights differ in length; with matching lengths it succeeds
and assigns each species of the union of source species the weighted sum
of the sources' (balanced) amounts. -/
theorem compose_spec (sources : List Mixture) (weights : List ℚ) :
    (sources.length ≠ weights.length →
      Mixture.compose sources weights none
        = .error (.valueError (composeLengthMsg sources.length weights.length))) ∧
    (sources.length = weights.length → (∀ src ∈ sources, src.speciesList.Nodup) →
      ∃ m, Mixture.compose sources weights none = .ok m ∧ m.name = none ∧
        ∀ s, m.composition.lookup s =
          if sources.any (fun src => src.hasSpecies s)
          then some (Amount.value (composeContrib (sources.zip weights) s))
          else none) := by
  constructor
  · intro hne
    simp [Mixture.compose, hne]
  · intro hlen hall
    have hzf : (sources.zip weights).map Prod.fst = sources :=
      List.map_fst_zip _ _ (le_of_eq hlen)
    have hallz : ∀ sw ∈ sources.zip weights, sw.1.speciesList.Nodup := by
      intro sw hsw
      exact hall sw.1 (List.of_mem_zip hsw).1
    have hany : ∀ s, (sources.zip weights).any (fun sw => sw.1.hasSpecies s)
        = sources.any (fun src => src.hasSpecies s) := fun s =>
      any_fst_zip sources weights hlen (fun src => src.hasSpecies s)
    refine ⟨⟨(composeFold [] (sources.zip weights)).map fun p => (p.1, Amount.value p.2),
        none⟩, ?_, rfl, ?_⟩
    · unfold Mixture.compose
      rw [if_neg (by simp [hlen])]
      simp only [mkMixture, getBalanceSpeciesE, balanceEntries_map_value]
    · intro s
      rw [lookup_map_pair Amount.value, composeFold_lookup _ s hallz []]
      simp only [List.lookup]
      rw [← hany s]
      rcases hc : (sources.zip weights).any (fun sw => sw.1.hasSpecies s) with _ | _
      · simp [hc]
      · simp [hc]

/-- Witness for C10: a length mismatch errors; matching lengths compose
the weighted union. -/
theorem compose_spec_w :
    Mixture.compose [mixN2, mixAr1] [1/2] none
        = .error (.valueError (composeLengthMsg 2 1)) ∧
    (∃ m, Mixture.compose [mixN2, mixAr1] [1/4, 1/2] none = .ok m ∧ m.name = none ∧
      ∀ s, m.composition.lookup s =
        if [mixN2, mixAr1].any (fun src => src.hasSpecies s)
        then some (Amount.value (composeContrib ([mixN2, mixAr1].zip [1/4, 1/2]) s))
        else none) :=
  ⟨(compose_spec [mixN2, mixAr1] [1/2]).1 (by decide),
   (compose_spec [mixN2, mixAr1] [1/4, 1/2]).2 rfl (by decide)⟩

/-! Calibration lemmas. -/

theorem setpoint_to_flowrate_default (cal : LinearCalibration) (table : List (String × ℚ))
    (c s : ℚ) (h0 : 0 ≤ s) (h1 : s ≤ 1) (hcf : cal.gas.cf table = .ok c) (hc : c ≠ 0)
    (hT : cal.temperature ≠ 0) :
    cal.setpoint_to_flowrate table ⟨s, Dim.dimensionless⟩ none none
      = .ok ⟨cal.offset + s * cal.slope, Dim.flow⟩ := by
  simp only [LinearCalibration.setpoint_to_flowrate, validate_dimension, validate_range,
    resolveTemperature, LinearCalibration.implToFlow, Option.getD, hcf, if_pos,
    if_true, reduceIte]
  rw [if_pos ⟨h0, h1⟩]
  simp only [if_neg hc, if_neg hT]
  rw [div_self hc, div_self hT, mul_one, mul_one]

theorem flowrate_to_setpoint_default (cal : LinearCalibration) (table : List (String × ℚ))
    (c f : ℚ) (hcf : cal.gas.cf table = .ok c) (hc : c ≠ 0)
    (hT : cal.temperature ≠ 0) (hs : cal.slope ≠ 0) :
    cal.flowrate_to_setpoint table ⟨f, Dim.flow⟩ none none
      = if 0 ≤ (f - cal.offset) / cal.slope ∧ (f - cal.offset) / cal.slope ≤ 1
        then .ok ⟨(f - cal.offset) / cal.slope, Dim.dimensionless⟩
        else .error (.valueError rangeBetweenMsg) := by
  simp only [LinearCalibration.flowrate_to_setpoint, validate_dimension, validate_range,
    resolveTemperature, LinearCalibration.implToFlow, Option.getD, hcf, if_pos,
    if_true, reduceIte]
  simp only [if_neg hc, if_neg hT, if_neg hs]
  rw [div_self hc, div_self hT, mul_one, mul_one]

/-- C3: with gas and temperature left at their defaults the
conversion-factor and temperature ratios cancel and
`flowrate_to_setpoint (setpoint_to_flowrate s) = s` exactly, for every
setpoint `s` in `[0, 1]`. -/
theorem setpoint_roundtrip (cal : LinearCalibration) (table : List (String × ℚ))
    (c s : ℚ) (h0 : 0 ≤ s) (h1 : s ≤ 1) (hcf : cal.gas.cf table = .ok c) (hc : c ≠ 0)
    (hT : cal.temperature ≠ 0) (hs : cal.slope ≠ 0) :
    (cal.setpoint_to_flowrate table ⟨s, Dim.dimensionless⟩ none none).bind
        (fun fl => cal.flowrate_to_setpoint table fl none none)
      = .ok ⟨s, Dim.dimensionless⟩ := by
  rw [setpoint_to_flowrate_default cal table c s h0 h1 hcf hc hT]
  show cal.flowrate_to_setpoint table ⟨cal.offset + s * cal.slope, Dim.flow⟩ none none = _
  rw [flowrate_to_setpoint_default cal table c _ hcf hc hT hs]
  have he : (cal.offset + s * cal.slope - cal.offset) / cal.slope = s := by
    field_simp
  rw [he, if_pos ⟨h0, h1⟩]

/-- The conversion factor of pure nitrogen over the one-row table. -/
theorem cf_mixN2 : mixN2.cf tableN2 = .ok 1 := by
  have e1 : tableN2.lookup ( "N2" : String) = some 1 := rfl
  have hb : balancedItems mixN2 = [ ( "N2", (1:ℚ))] := rfl
  rw [Mixture.cf, hb, calculate_CF]
  rw [cfAccum, e1]
  norm_num [cfAccum]

/-- Witness for C3 at `s = 1/2` on the nitrogen calibration. -/
theorem setpoint_roundtrip_w :
    (calRound.setpoint_to_flowrate tableN2 ⟨1/2, Dim.dimensionless⟩ none none).bind
        (fun fl => calRound.flowrate_to_setpoint tableN2 fl none none)
      = .ok ⟨1/2, Dim.dimensionless⟩ :=
  setpoint_roundtrip calRound tableN2 1 (1/2) (by norm_num) (by norm_num) cf_mixN2
    one_ne_zero (by norm_num [calRound]) (by norm_num [calRound])

/-- C6 (amended): `flowrate_to_setpoint` rejects inputs without flow
dimension, and validates the computed setpoint to lie in `[0, 1]`,
raising the range `ValueError` instead of clamping; a negative flow rate
is not itself rejected (see the counterexample). -/
theorem flowrate_to_setpoint_checks (cal : LinearCalibration) (table : List (String × ℚ))
    (q : Qty) :
    (q.dim ≠ Dim.flow → ∀ g t,
      cal.flowrate_to_setpoint table q g t = .error (.valueError dimErrMsg)) ∧
    (∀ c, q.dim = Dim.flow → cal.gas.cf table = .ok c → c ≠ 0 → cal.temperature ≠ 0 →
      cal.slope ≠ 0 →
      cal.flowrate_to_setpoint table q none none
        = if 0 ≤ (q.mag - cal.offset) / cal.slope ∧ (q.mag - cal.offset) / cal.slope ≤ 1
          then .ok ⟨(q.mag - cal.offset) / cal.slope, Dim.dimensionless⟩
          else .error (.valueError rangeBetweenMsg)) := by
  constructor
  · intro hdim g t
    simp only [LinearCalibration.flowrate_to_setpoint, validate_dimension, if_neg hdim]
  · intro c hdim hcf hc hT hs
    obtain ⟨mag, dim⟩ := q
    simp only at hdim
    subst hdim
    exact flowrate_to_setpoint_default cal table c mag hcf hc hT hs

/-- C6 counterexample: with a negative offset, the negative flow rate
`-5` is accepted and inverted to the setpoint `1/4`; no error is raised
for the negative flow rate itself. -/
theorem flowrate_negative_accepted :
    (-5 : ℚ) < 0 ∧
    calNeg.flowrate_to_setpoint tableN2 ⟨-5, Dim.flow⟩ none none
      = .ok ⟨1/4, Dim.dimensionless⟩ := by
  constructor
  · norm_num
  · rw [flowrate_to_setpoint_default calNeg tableN2 1 (-5) cf_mixN2 one_ne_zero
      (by norm_num [calNeg]) (by norm_num [calNeg])]
    norm_num [calNeg]

/-- Witness for C6 (amended): a temperature-dimensioned input errors, and
the negative-offset calibration maps `-5` through the validated range
check. -/
theorem flowrate_to_setpoint_checks_w :
    calRound.flowrate_to_setpoint tableN2 ⟨1, Dim.temperature⟩ none none
        = .error (.valueError dimErrMsg) ∧
    calNeg.flowrate_to_setpoint tableN2 ⟨-5, Dim.flow⟩ none none
      = if 0 ≤ ((-5:ℚ) - calNeg.offset) / calNeg.slope ∧
            ((-5:ℚ) - calNeg.offset) / calNeg.slope ≤ 1
        then .ok ⟨((-5:ℚ) - calNeg.offset) / calNeg.slope, Dim.dimensionless⟩
        else .error (.valueError rangeBetweenMsg) :=
  ⟨(flowrate_to_setpoint_checks calRound tableN2 ⟨1, Dim.temperature⟩).1 (by decide)
      none none,
   (flowrate_to_setpoint_checks calNeg tableN2 ⟨-5, Dim.flow⟩).2 1 rfl cf_mixN2
      one_ne_zero (by norm_num [calNeg]) (by norm_num [calNeg])⟩

/-! Supply-solver lemmas. -/

theorem solveSystem_ne_nil (nnls : List (List ℚ × ℚ) → List ℚ) (sources : List Mixture)
    (mix : Mixture) (l : List String) (h : l ≠ []) :
    solveSystem nnls sources mix l = .ok (nnls (l.map (buildRow sources mix))) := by
  cases l with
  | nil => exact absurd rfl h
  | cons a t => rfl

theorem balanceEntries_assocSet_balance (l : List (String × Amount)) (bw : String)
    (hv : ∀ p ∈ l, p.2 ≠ Amount.balance) :
    balanceEntries (assocSet l bw Amount.balance) = [bw] := by
  induction l with
  | nil => rfl
  | cons p rest ih =>
    have hvrest : ∀ q ∈ rest, q.2 ≠ Amount.balance := fun q hq =>
      hv q (List.mem_cons_of_mem _ hq)
    by_cases h : p.1 = bw
    · have hrest : rest.filter (fun q => decide (q.2 = Amount.balance)) = [] := by
        apply List.filter_eq_nil_iff.mpr
        intro q hq
        simpa using hvrest q hq
      unfold balanceEntries
      simp [assocSet, if_pos h, List.filter_cons, hrest, h]
    · have hp : decide (p.2 = Amount.balance) = false := by
        simpa using hv p (List.mem_cons_self _ _)
      unfold balanceEntries at ih ⊢
      simp only [assocSet, if_neg h, List.filter_cons, hp]
      exact ih hvrest

theorem balanceEntries_composeStep (sources : List Mixture) (x1 : List ℚ)
    (speciesL : List String) (bw : String) :
    balanceEntries (composeStep sources x1 speciesL bw) = [bw] := by
  unfold composeStep
  apply balanceEntries_assocSet_balance
  intro p hp
  simp only [List.mem_map] at hp
  obtain ⟨q, _, hq⟩ := hp
  rw [← hq]
  simp

theorem mkMixture_composeStep (sources : List Mixture) (x1 : List ℚ)
    (speciesL : List String) (bw : String) :
    mkMixture none (composeStep sources x1 speciesL bw)
      = .ok ⟨composeStep sources x1 speciesL bw, none⟩ := by
  rw [mkMixture, getBalanceSpeciesE, balanceEntries_composeStep]

/-- C7 (amended): whenever the union of source species is non-empty and,
if the target carries a balance species, at least one non-balance target
species is supplied by some source, `supply_proportions_for_mixture`
returns weights (with its warnings) and raises no exception; the
missing-species and sum-consistency conditions are surfaced only through
the returned warning list. -/
theorem supply_nonempty_ok (nnls : List (List ℚ × ℚ) → List ℚ) (sources : List Mixture)
    (target : Mixture) (hsrc : sources ≠ [])
    (hu : speciesUnion sources ≠ [])
    (hph : ∀ bw, target.balanceKey = some bw →
      (speciesUnion sources).filter
        (fun s => !(decide (s = bw) || !(target.speciesList.contains s))) ≠ []) :
    ∃ r, supply_proportions_for_mixture nnls sources target = .ok r := by
  cases hb : target.balanceKey with
  | none =>
    simp only [supply_proportions_for_mixture, hb, supplyFinish,
      solveSystem_ne_nil nnls sources target.balanced _ hu]
    exact ⟨_, rfl⟩
  | some bw =>
    have h1 := hph bw hb
    simp only [supply_proportions_for_mixture, hb,
      solveSystem_ne_nil nnls sources target _ h1, mkMixture_composeStep, supplyFinish,
      solveSystem_ne_nil nnls sources _ _ hu]
    exact ⟨_, rfl⟩

/-- C7 counterexample: with the non-empty source list `[Ar]` and the
pure-balance target `{Ar: *}`, the phase-1 system is empty and the NNLS
routine's `ValueError` escapes instead of weights being returned. -/
theorem supply_exception_counterexample :
    ([mixAr1] ≠ ([] : List Mixture)) ∧
    supply_proportions_for_mixture nnls0 [mixAr1] mixArStar
      = .error (.valueError matrixShapeMsg) := by
  decide

/-- Witness for C7 (amended) on a balance-free target. -/
theorem supply_nonempty_ok_w :
    ∃ r, supply_proportions_for_mixture nnls0 srcsArN2 mixN2 = .ok r :=
  supply_nonempty_ok nnls0 srcsArN2 mixN2 (by decide) (by decide)
    (fun bw h => Option.noConfusion h)

/-! Two-phase decomposition: code versus specification wording. -/

theorem speciesUnion_nodup (sources : List Mixture) : (speciesUnion sources).Nodup :=
  ((List.perm_insertionSort _ _).nodup_iff).mpr (List.nodup_dedup _)

theorem mem_speciesUnion (sources : List Mixture) (s : String) :
    s ∈ speciesUnion sources ↔ ∃ src ∈ sources, s ∈ src.speciesList := by
  unfold speciesUnion sortStrings
  rw [(List.perm_insertionSort _ _).mem_iff, List.mem_dedup, List.mem_flatten]
  constructor
  · rintro ⟨l, hl, hs⟩
    obtain ⟨src, hsrc, rfl⟩ := List.mem_map.mp hl
    exact ⟨src, hsrc, hs⟩
  · rintro ⟨src, hsrc, hs⟩
    exact ⟨src.speciesList, List.mem_map_of_mem _ hsrc, hs⟩

theorem solveSystem_perm (nnls : List (List ℚ × ℚ) → List ℚ)
    (H : ∀ s₁ s₂ : List (List ℚ × ℚ), s₁.Perm s₂ → nnls s₁ = nnls s₂)
    (sources : List Mixture) (mix : Mixture) {l₁ l₂ : List String} (hp : l₁.Perm l₂) :
    solveSystem nnls sources mix l₁ = solveSystem nnls sources mix l₂ := by
  cases l₁ with
  | nil =>
    have h2 : l₂ = [] := hp.symm.eq_nil
    rw [h2]
  | cons a t =>
    cases l₂ with
    | nil => exact absurd hp.eq_nil (by simp)
    | cons b t₂ =>
      show Except.ok (nnls ((a :: t).map (buildRow sources mix)))
          = Except.ok (nnls ((b :: t₂).map (buildRow sources mix)))
      rw [H _ _ (hp.map (buildRow sources mix))]

/-- C1 (amended): for a row-order-independent NNLS solver, non-empty
sources and a balance-carrying target all of whose other species are
supplied by some source, `supply_proportions_for_mixture` computes
exactly the specified two-phase pipeline: phase 1 over the non-balance
target species, recomposition over the source-species union with the
balance species re-inserted, phase 2 over the full union against the
balanced recomposition, and zeroing of the result.  (Without the
supplied-species condition the code drops unsupplied target species from
the phase-1 system, diverging from the specification wording — see the
counterexample.) -/
theorem supply_two_phase_matches_spec (nnls : List (List ℚ × ℚ) → List ℚ)
    (H : ∀ s₁ s₂ : List (List ℚ × ℚ), s₁.Perm s₂ → nnls s₁ = nnls s₂)
    (sources : List Mixture) (target : Mixture) (bw : String)
    (hsrc : sources ≠ [])
    (hnd : target.speciesList.Nodup)
    (hb : target.balanceKey = some bw)
    (hsub : ∀ s ∈ target.speciesList, s ≠ bw → s ∈ speciesUnion sources) :
    Except.map Prod.snd (supply_proportions_for_mixture nnls sources target)
      = spec_supply_proportions nnls sources target := by
  have hperm : ((speciesUnion sources).filter
        (fun s => !(decide (s = bw) || !(target.speciesList.contains s)))).Perm
      (target.speciesList.filter (fun s => !(decide (s = bw)))) := by
    apply (List.perm_ext_iff_of_nodup ((speciesUnion_nodup sources).filter _)
      (hnd.filter _)).mpr
    intro a
    simp only [List.mem_filter, Bool.not_eq_true', Bool.or_eq_false_iff,
      decide_eq_false_iff_not, Bool.not_eq_false]
    constructor
    · rintro ⟨_, hne, hcon⟩
      refine ⟨?_, hne⟩
      have hc2 : target.speciesList.contains a = true := by simpa using hcon
      exact List.elem_iff.mp hc2
    · rintro ⟨hmem, hne⟩
      refine ⟨hsub a hmem hne, hne, ?_⟩
      simpa using List.elem_iff.mpr hmem
  simp only [supply_proportions_for_mixture, spec_supply_proportions, hb]
  rw [solveSystem_perm nnls H sources target hperm]
  cases hx1 : solveSystem nnls sources target
      (target.speciesList.filter fun s => !(decide (s = bw))) with
  | error e => rfl
  | ok x1 =>
    dsimp only
    cases hm2 : mkMixture none (composeStep sources x1 (speciesUnion sources) bw) with
    | error e => rfl
    | ok mix2 =>
      dsimp only [supplyFinish]
      cases hx2 : solveSystem nnls sources mix2.balanced (speciesUnion sources) with
      | error e => rfl
      | ok x => rfl

/-- C1 counterexample: sources `[{Ar: 1}]` and target `{Ar: *, N2: 0.5}`
(non-empty sources, balance species present).  The code's phase-1 system
drops `N2` (it is supplied by no source), leaving an empty system whose
solve raises, while the specified pipeline solves phase 1 over `{N2}`
and returns weights. -/
theorem supply_two_phase_counterexample :
    ([mixAr1] ≠ ([] : List Mixture)) ∧
    tgtArN2.balanceKey = some ( "Ar" : String) ∧
    Except.map Prod.snd (supply_proportions_for_mixture nnls0 [mixAr1] tgtArN2)
      ≠ spec_supply_proportions nnls0 [mixAr1] tgtArN2 := by
  decide

/-- Witness for C1 (amended): with both `Ar` and `N2` supplied, the code
output equals the specified pipeline. -/
theorem supply_two_phase_matches_spec_w :
    Except.map Prod.snd (supply_proportions_for_mixture nnls0 srcsArN2 tgtArN2)
      = spec_supply_proportions nnls0 srcsArN2 tgtArN2 :=
  supply_two_phase_matches_spec nnls0 (fun _ _ _ => rfl) srcsArN2 tgtArN2 ( "Ar")
    (by decide) (by decide) (by decide) (by decide)

end Mfclib
